import Mathlib

/-!
Verification of the MinerU RAG wiring: a shallow embedding of the chunk
enrichment step, the vector-index population step, the reference map, the
traced-query block, the provenance duration computation, the environment
configuration step, and the batch parsing CLI entry point, together with
theorems settling the specification claims about them.
-/

namespace MineruRag

/-- JSON-like scalar value stored in a content-list record
(strings, integers, and Python `None`). -/
inductive Val where
  | s : String → Val
  | i : Int → Val
  | null : Val
deriving DecidableEq, Repr

/-- A JSON object / Python dict, as an insertion-ordered association list.
Uniqueness of keys is maintained by `dset`; `recordWF` states it. -/
abbrev Record := List (String × Val)

/-- Python `d.get(k)` / `d[k]`: the first binding of `k`, if any. -/
def dget : Record → String → Option Val
  | [], _ => none
  | (k, v) :: rest, key => if k = key then some v else dget rest key

/-- Python `d[k] = v`: update the existing binding in place, else append. -/
def dset : Record → String → Val → Record
  | [], key, v => [(key, v)]
  | (k, w) :: rest, key, v =>
    if k = key then (k, v) :: rest else (k, w) :: dset rest key v

/-- A record parsed from a JSON object has pairwise-distinct keys. -/
def recordWF (r : Record) : Prop := (r.map Prod.fst).Nodup

instance (r : Record) : Decidable (recordWF r) := by
  unfold recordWF; infer_instance

/-- The stable chunk identifier `f"chunk_{i}"`. -/
def chunkId (i : Nat) : String := "chunk_" ++ toString i

/-- Python `{'chunk_id': c, **item}`: start from the base dict and merge the
bindings of `item` on top of it, in order — so a binding of `item` overrides
a same-keyed binding of the base. -/
def mergeInto (base : Record) (item : Record) : Record :=
  item.foldl (fun acc p => dset acc p.1 p.2) base

/-- Enrichment loop of `run_mineru_rag_pipeline` (my_rag.py lines 83-91):
`for i, item in enumerate(original_data): item['chunk_id'] = f"chunk_{i}"`,
appending each updated item in order. `i` is the index of the first item. -/
def enrichLoopFrom (i : Nat) : List Record → List Record
  | [] => []
  | item :: rest =>
    dset item "chunk_id" (Val.s (chunkId i)) :: enrichLoopFrom (i + 1) rest

/-- The enrichment loop applied to a whole raw content list. -/
def enrichLoop (data : List Record) : List Record := enrichLoopFrom 0 data

/-- Enrichment comprehension of `initialize_rag_system` (rag_core.py line 70):
`[{'chunk_id': f"chunk_{i}", **item} for i, item in enumerate(original_data)]`.
A pre-existing `chunk_id` binding of `item` overrides the generated one. -/
def enrichCompFrom (i : Nat) : List Record → List Record
  | [] => []
  | item :: rest =>
    mergeInto [("chunk_id", Val.s (chunkId i))] item :: enrichCompFrom (i + 1) rest

/-- The enrichment comprehension applied to a whole raw content list. -/
def enrichComp (data : List Record) : List Record := enrichCompFrom 0 data

/-- The file-system state relevant to enrichment: existence and content of the
raw content-list JSON and of the enriched `input.json`. -/
structure ChunkFS where
  rawExists : Bool
  raw : List Record
  enrichedExists : Bool
  enriched : List Record
deriving DecidableEq, Repr

/-- A file operation performed by the chunk-store building step. -/
inductive FileEffect where
  | readRaw
  | writeEnriched
deriving DecidableEq, Repr

/-- Outcome of the chunk-store building step. -/
inductive BuildResult where
  | built
  | reused
  | sourceMissing
deriving DecidableEq, Repr

/-- Chunk-store building step (my_rag.py lines 74-95, and identically guarded
in rag_core.py lines 62-72): if the enriched file does not exist, read the raw
file (a FileNotFoundError is reported and the function returns), enrich it and
write the enriched file; if the enriched file exists, skip the step entirely.
Returns the new file-system state, the file effects performed on the raw and
enriched paths, and the outcome. -/
def buildChunkStore (fs : ChunkFS) : ChunkFS × List FileEffect × BuildResult :=
  if fs.enrichedExists then (fs, [], BuildResult.reused)
  else if fs.rawExists then
    ({ fs with enrichedExists := true, enriched := enrichLoop fs.raw },
      [FileEffect.readRaw, FileEffect.writeEnriched], BuildResult.built)
  else (fs, [FileEffect.readRaw], BuildResult.sourceMissing)

/-- Python `item.get("text", "")` as used on content-list records, whose
`text` values are strings. -/
def getTextD (item : Record) : String :=
  match dget item "text" with
  | some (Val.s t) => t
  | _ => ""

/-- Python `str.strip()`: remove leading and trailing whitespace. -/
def pyStrip (s : String) : String :=
  String.mk
    (((s.toList.dropWhile Char.isWhitespace).reverse.dropWhile
        Char.isWhitespace).reverse)

/-- The document filter shared by both pipelines:
`item.get("type") == "text" and item.get("text", "").strip()`. -/
def qualifies (item : Record) : Bool :=
  (dget item "type" == some (Val.s "text")) && !(pyStrip (getTextD item) == "")

/-- An embeddable document: text plus a metadata dict. -/
structure Doc where
  text : String
  metadata : Record
deriving DecidableEq, Repr

/-- Document comprehension of `initialize_rag_system` (rag_core.py line 77):
qualifying items become documents with metadata
`{"page": item.get("page_idx"), "chunk_id": item['chunk_id']}`;
the subscript `item['chunk_id']` raises KeyError when the key is absent,
modeled as `none`. -/
def documentsCore : List Record → Option (List Doc)
  | [] => some []
  | item :: rest =>
    if qualifies item then
      match dget item "chunk_id", documentsCore rest with
      | some cid, some docs =>
        some ({ text := getTextD item,
                metadata := [("page", (dget item "page_idx").getD Val.null),
                             ("chunk_id", cid)] } :: docs)
      | _, _ => none
    else documentsCore rest

/-- Document loop of `run_mineru_rag_pipeline` (my_rag.py lines 110-123):
qualifying items become documents with metadata
`{"page": item.get("page_idx", "N/A"), "type": item.get("type"),
"level": item.get("text_level", 0), "chunk_id": item['chunk_id']}`. -/
def documentsRag : List Record → Option (List Doc)
  | [] => some []
  | item :: rest =>
    if qualifies item then
      match dget item "chunk_id", documentsRag rest with
      | some cid, some docs =>
        some ({ text := getTextD item,
                metadata := [("page", (dget item "page_idx").getD (Val.s "N/A")),
                             ("type", (dget item "type").getD Val.null),
                             ("level", (dget item "text_level").getD (Val.i 0)),
                             ("chunk_id", cid)] } :: docs)
      | _, _ => none
    else documentsRag rest

/-- The persistent vector collection: the stored embedded documents. -/
structure Collection where
  records : List Doc
deriving DecidableEq, Repr

/-- Index population step (rag_core.py lines 56-84, my_rag.py lines 140-158):
`if chroma_collection.count() == 0`, embed and store the prepared documents as
one batch; otherwise perform no writes and reuse the collection. Returns the
resulting collection and the list of documents submitted for storage. -/
def initIndex (docs : List Doc) (c : Collection) : Collection × List Doc :=
  if c.records.length = 0 then ({ records := c.records ++ docs }, docs)
  else (c, [])

/-- Lookup in a dict keyed by arbitrary values (the reference map). -/
def vget : List (Val × Record) → Val → Option Record
  | [], _ => none
  | (k, v) :: rest, key => if k = key then some v else vget rest key

/-- Keyed update in a dict keyed by arbitrary values. -/
def vset : List (Val × Record) → Val → Record → List (Val × Record)
  | [], key, v => [(key, v)]
  | (k, w) :: rest, key, v =>
    if k = key then (k, v) :: rest else (k, w) :: vset rest key v

/-- Left-to-right accumulation of the reference-map dict comprehension. -/
def buildReferenceMapAux (acc : List (Val × Record)) :
    List Record → Option (List (Val × Record))
  | [] => some acc
  | item :: rest =>
    match dget item "chunk_id" with
    | none => none
    | some cid => buildReferenceMapAux (vset acc cid item) rest

/-- `get_reference_map` comprehension (rag_core.py line 99, my_rag.py line 108):
`{item['chunk_id']: item for item in data_for_rag}`; the subscript raises
KeyError on a record without `chunk_id`, modeled as `none`; a duplicate
identifier keeps the later record, Python dict semantics. -/
def buildReferenceMap (data : List Record) : Option (List (Val × Record)) :=
  buildReferenceMapAux [] data

/-- The global callback-manager slot (`Settings.callback_manager`): either the
empty manager `CallbackManager([])` or a manager bound to a debug sink,
identified by the sink it wraps. -/
inductive CallbackSlot where
  | emptyManager
  | boundSink (sinkId : Nat)
deriving DecidableEq, Repr

/-- An exception raised by retrieval or synthesis inside the external
library call. -/
structure QueryErr where
  msg : String
deriving DecidableEq, Repr

/-- The traced-query block of app.py lines 190-228: allocate a fresh sink,
assign `Settings.callback_manager = CallbackManager([llama_debug])`, run
`query_engine.query(prompt)`, then append the assistant message with the
drained event pairs and finally assign
`Settings.callback_manager = CallbackManager([])`. There is no try/finally:
when the query call raises, the statements after it — including the final
reset — do not run and the exception propagates. `queryResult` is the outcome
of the external retrieval+synthesis call; the function returns the final slot
state, the chat messages, and the propagated outcome. -/
def tracedQueryBlock (sinkId : Nat) (queryResult : Except QueryErr String)
    (messages : List String) :
    CallbackSlot × List String × Except QueryErr String :=
  match queryResult with
  | Except.error e => (CallbackSlot.boundSink sinkId, messages, Except.error e)
  | Except.ok ans =>
    (CallbackSlot.emptyManager, messages ++ [ans], Except.ok ans)

/-- The six environment variables consumed by model configuration. -/
structure Env where
  llm_api_base : Option String
  llm_api_key : Option String
  llm_model_name : Option String
  embed_api_base : Option String
  embed_api_key : Option String
  embed_model_name : Option String
deriving DecidableEq, Repr

/-- Python truthiness of an `os.getenv` result: `None` and `""` are falsy. -/
def truthy : Option String → Bool
  | none => false
  | some s => !s.isEmpty

/-- Outcome of the model-configuration step. -/
inductive ConfigOutcome where
  | abortedMissingLLM
  | abortedMissingEmbed
  | configured (llmModel llmBase llmKey embedModel embedBase embedKey :
      Option String)
deriving DecidableEq, Repr

/-- STEP 1 of `run_mineru_rag_pipeline` (my_rag.py lines 40-60): read the LLM
triple, return with an error message if `not all([...])`; read the embedding
triple, return with an error message if `not all([...])`; otherwise build
both clients from the six values. -/
def configModelsRag (env : Env) : ConfigOutcome :=
  if !(truthy env.llm_api_base && truthy env.llm_api_key &&
      truthy env.llm_model_name) then
    ConfigOutcome.abortedMissingLLM
  else if !(truthy env.embed_api_base && truthy env.embed_api_key &&
      truthy env.embed_model_name) then
    ConfigOutcome.abortedMissingEmbed
  else
    ConfigOutcome.configured env.llm_model_name env.llm_api_base
      env.llm_api_key env.embed_model_name env.embed_api_base
      env.embed_api_key

/-- STEP 1 of `initialize_rag_system` (rag_core.py lines 36-47): read the six
variables and construct both clients directly, with no validation of any of
them. -/
def configModelsCore (env : Env) : ConfigOutcome :=
  ConfigOutcome.configured env.llm_model_name env.llm_api_base
    env.llm_api_key env.embed_model_name env.embed_api_base
    env.embed_api_key

/-- Split a character list at every occurrence of a separator character. -/
def splitOnChar (sep : Char) : List Char → List (List Char)
  | [] => [[]]
  | c :: rest =>
    let r := splitOnChar sep rest
    if c = sep then [] :: r
    else
      match r with
      | [] => [[c]]
      | h :: t => (c :: h) :: t

/-- A run of decimal digits as a number; `none` on empty or non-digit input. -/
def digitsToNat? (l : List Char) : Option Nat :=
  if l = [] then none
  else if l.all Char.isDigit then
    some (l.foldl (fun n c => n * 10 + (c.toNat - 48)) 0)
  else none

/-- A parsed `datetime` value: calendar date plus time of day with
microseconds. -/
structure PyDateTime where
  year : Nat
  month : Nat
  day : Nat
  hour : Nat
  minute : Nat
  second : Nat
  micro : Nat
deriving DecidableEq, Repr

/-- `datetime.strptime(s, "%m/%d/%Y, %H:%M:%S.%f")`, the fixed
fractional-seconds format of app.py line 28: month/day/year, a comma and a
space, then hour:minute:second.fraction; the fraction may hold 1 to 6 digits
and is scaled to microseconds. Returns `none` where `strptime` raises. -/
def parseTimestamp (s : String) : Option PyDateTime :=
  match splitOnChar ',' s.toList with
  | [datePart, spTime] =>
    match spTime with
    | ' ' :: timePart =>
      match splitOnChar '/' datePart with
      | [ms, ds, ys] =>
        match splitOnChar ':' timePart with
        | [hs, mins, secfrac] =>
          match splitOnChar '.' secfrac with
          | [ss, fs] =>
            match digitsToNat? ms, digitsToNat? ds, digitsToNat? ys,
                digitsToNat? hs, digitsToNat? mins, digitsToNat? ss,
                digitsToNat? fs with
            | some m, some d, some y, some h, some mi, some sec, some frac =>
              if 1 ≤ m ∧ m ≤ 12 ∧ 1 ≤ d ∧ d ≤ 31 ∧ h ≤ 23 ∧ mi ≤ 59 ∧
                  sec ≤ 61 ∧ 1 ≤ fs.length ∧ fs.length ≤ 6 then
                some ⟨y, m, d, h, mi, sec, frac * 10 ^ (6 - fs.length)⟩
              else none
            | _, _, _, _, _, _, _ => none
          | _ => none
        | _ => none
      | _ => none
    | _ => none
  | _ => none

/-- Gregorian leap year, as in the `datetime` module. -/
def isLeap (y : Nat) : Bool :=
  (y % 4 == 0 && !(y % 100 == 0)) || y % 400 == 0

/-- Days in the year before the first day of month `m`. -/
def daysBeforeMonth (y m : Nat) : Nat :=
  (([31, if isLeap y then 29 else 28, 31, 30, 31, 30, 31, 31, 30, 31, 30,
      31].take (m - 1)).foldl (fun a b => a + b) 0)

/-- `date.toordinal()`: the proleptic Gregorian ordinal of the date. -/
def toOrdinal (y m d : Nat) : Nat :=
  365 * (y - 1) + (y - 1) / 4 - (y - 1) / 100 + (y - 1) / 400 +
    daysBeforeMonth y m + d

/-- A `datetime` as microseconds on the proleptic Gregorian time line; the
difference of two of these is the `timedelta` of the subtraction in
`get_duration`. -/
def toMicros (t : PyDateTime) : Nat :=
  (((toOrdinal t.year t.month t.day * 24 + t.hour) * 60 + t.minute) * 60 +
    t.second) * 1000000 + t.micro

/-- One captured callback event: its kind (`CBEventType` value) and its
formatted timestamp. -/
structure TraceEvent where
  eventType : String
  time : String
deriving DecidableEq, Repr

/-- `get_duration` (app.py lines 25-32):
`next((p for p in event_pairs if p[0].event_type == etype), None)`; when a
pair is found, parse the start and end timestamps with the fixed format and
return `(end_time - start_time).total_seconds()` — exact here, as a rational
number of seconds — with a `strptime` failure raising (modeled `.error`);
when no pair is found, return `None`. -/
def getDuration (eventPairs : List (TraceEvent × TraceEvent))
    (etype : String) : Except String (Option ℚ) :=
  match eventPairs.find? (fun p => p.1.eventType == etype) with
  | none => Except.ok none
  | some p =>
    match parseTimestamp p.1.time, parseTimestamp p.2.time with
    | some st, some en =>
      Except.ok (some (((toMicros en : ℚ) - (toMicros st : ℚ)) / 1000000))
    | _, _ => Except.error "strptime"

/-- One input document of the parsing CLI batch: its name and whether reading
it (`read_fn` / page counting) succeeds. -/
structure DocFile where
  name : String
  readable : Bool
deriving DecidableEq, Repr

/-- Result of one `parse_doc` call: the names handed to the single `do_parse`
batch call, the logged exception if any, and whether an exception escaped
uncaught. -/
structure ParseRun where
  parsedDocs : List String
  loggedError : Option String
  crashed : Bool
deriving DecidableEq, Repr

/-- The reading loop inside the try block of `parse_doc` (client.py lines
204-215): each document is read in order; the first failing read raises,
abandoning the loop. -/
def readAll : List DocFile → Except String (List String)
  | [] => Except.ok []
  | d :: rest =>
    if d.readable then (readAll rest).map (fun ns => d.name :: ns)
    else Except.error d.name

/-- `parse_doc` (client.py lines 197-236): a single try block wraps the
reading loop over the whole batch and the one `do_parse` call on the whole
batch; any exception is caught by the `except` clause and logged via
`logger.exception`, and the function returns normally. -/
def parse_doc (docs : List DocFile) : ParseRun :=
  match readAll docs with
  | Except.ok names =>
    { parsedDocs := names, loggedError := none, crashed := false }
  | Except.error n =>
    { parsedDocs := [], loggedError := some n, crashed := false }

theorem dget_dset_self (r : Record) (k : String) (v : Val) :
    dget (dset r k v) k = some v := by
  induction r with
  | nil => simp [dget, dset]
  | cons p rest ih =>
    by_cases h : p.1 = k
    · simp [dset, dget, h]
    · simp [dset, dget, h, ih]

theorem dget_dset_ne (r : Record) (k k' : String) (v : Val) (h : k ≠ k') :
    dget (dset r k v) k' = dget r k' := by
  induction r with
  | nil => simp [dget, dset, h]
  | cons p rest ih =>
    by_cases hp : p.1 = k
    · simp [dset, dget, hp, h]
    · simp only [dset, hp, if_false, dget]
      by_cases hp' : p.1 = k'
      · simp [hp']
      · simp [hp', ih]

theorem dget_eq_none_iff (r : Record) (k : String) :
    dget r k = none ↔ k ∉ r.map Prod.fst := by
  induction r with
  | nil => simp [dget]
  | cons p rest ih =>
    by_cases hp : p.1 = k
    · simp [dget, hp]
    · simp [dget, hp, ih, Ne.symm hp]

theorem dget_mergeInto_of_none (base item : Record) (k : String)
    (h : dget item k = none) :
    dget (mergeInto base item) k = dget base k := by
  induction item generalizing base with
  | nil => simp [mergeInto]
  | cons p rest ih =>
    have hp : p.1 ≠ k := by
      intro he
      simp [dget, he] at h
    have hr : dget rest k = none := by
      simpa [dget, hp] using h
    have : mergeInto base (p :: rest) = mergeInto (dset base p.1 p.2) rest := by
      simp [mergeInto]
    rw [this, ih _ hr, dget_dset_ne _ _ _ _ hp]

theorem dget_mergeInto_of_some (base item : Record) (k : String) (v : Val)
    (hwf : recordWF item) (h : dget item k = some v) :
    dget (mergeInto base item) k = some v := by
  induction item generalizing base with
  | nil => simp [dget] at h
  | cons p rest ih =>
    have hstep : mergeInto base (p :: rest) = mergeInto (dset base p.1 p.2) rest := by
      simp [mergeInto]
    by_cases hp : p.1 = k
    · have hv : p.2 = v := by simpa [dget, hp] using h
      have hnot : k ∉ rest.map Prod.fst := by
        have := hwf
        simp only [recordWF, List.map_cons, List.nodup_cons] at this
        exact hp ▸ this.1
      have hr : dget rest k = none := (dget_eq_none_iff rest k).mpr hnot
      rw [hstep, dget_mergeInto_of_none _ _ _ hr]
      subst hp hv
      exact dget_dset_self base p.1 p.2
    · have hr : dget rest k = some v := by simpa [dget, hp] using h
      have hwf' : recordWF rest := by
        have := hwf
        simp only [recordWF, List.map_cons, List.nodup_cons] at this
        exact this.2
      rw [hstep, ih _ hwf' hr]

/-- Position `i` of the loop enrichment started at `j` enriches position `i`
of the data with identifier `chunk_(j+i)`. -/
theorem enrichLoopFrom_getElem (j : Nat) (data : List Record) (i : Nat) :
    (enrichLoopFrom j data)[i]? =
      (data[i]?).map (fun item => dset item "chunk_id" (Val.s (chunkId (j + i)))) := by
  induction data generalizing i j with
  | nil => simp [enrichLoopFrom]
  | cons item rest ih =>
    cases i with
    | zero => simp [enrichLoopFrom]
    | succ n =>
      simp only [enrichLoopFrom, List.getElem?_cons_succ, ih (j + 1) n]
      have : j + 1 + n = j + (n + 1) := by omega
      rw [this]

/-- Position `i` of the comprehension enrichment started at `j`. -/
theorem enrichCompFrom_getElem (j : Nat) (data : List Record) (i : Nat) :
    (enrichCompFrom j data)[i]? =
      (data[i]?).map (fun item => mergeInto [("chunk_id", Val.s (chunkId (j + i)))] item) := by
  induction data generalizing i j with
  | nil => simp [enrichCompFrom]
  | cons item rest ih =>
    cases i with
    | zero => simp [enrichCompFrom]
    | succ n =>
      simp only [enrichCompFrom, List.getElem?_cons_succ, ih (j + 1) n]
      have : j + 1 + n = j + (n + 1) := by omega
      rw [this]

/-- On a record with unique keys that does not yet bind `chunk_id`, the
in-place assignment of the loop and the merge of the comprehension agree
at every key. -/
theorem dset_vs_merge (item : Record) (hwf : recordWF item)
    (hnone : dget item "chunk_id" = none) (c : Val) (k : String) :
    dget (dset item "chunk_id" c) k = dget (mergeInto [("chunk_id", c)] item) k := by
  by_cases hk : k = "chunk_id"
  · subst hk
    rw [dget_dset_self, dget_mergeInto_of_none _ _ _ hnone]
    simp [dget]
  · rw [dget_dset_ne _ _ _ _ (Ne.symm hk)]
    cases hik : dget item k with
    | none =>
      rw [dget_mergeInto_of_none _ _ _ hik]
      simp [dget, Ne.symm hk]
    | some v => rw [dget_mergeInto_of_some _ _ _ _ hwf hik]

example : chunkId 2 = "chunk_2" := by decide

example :
    enrichLoop [[("type", Val.s "text")]] =
      [[("type", Val.s "text"), ("chunk_id", Val.s "chunk_0")]] := by decide

example :
    enrichComp [[("chunk_id", Val.s "old")]] = [[("chunk_id", Val.s "old")]] := by
  decide

example :
    enrichLoop [[("chunk_id", Val.s "old")]] = [[("chunk_id", Val.s "chunk_0")]] := by
  decide

/-- The batch of documents prepared by `initialize_rag_system` has one
document per qualifying record. -/
theorem documentsCore_length (data : List Record) (docs : List Doc)
    (h : documentsCore data = some docs) :
    docs.length = data.countP qualifies := by
  induction data generalizing docs with
  | nil =>
    simp only [documentsCore, Option.some.injEq] at h
    simp [← h]
  | cons item rest ih =>
    by_cases hq : qualifies item
    · simp only [documentsCore, hq, if_true] at h
      cases hcid : dget item "chunk_id" with
      | none => rw [hcid] at h; cases h
      | some cid =>
        rw [hcid] at h
        cases hrest : documentsCore rest with
        | none => rw [hrest] at h; cases h
        | some ds =>
          rw [hrest] at h
          simp only [Option.some.injEq] at h
          rw [← h, List.countP_cons_of_pos _ _ hq]
          simp [ih ds hrest]
    · simp only [documentsCore, hq, if_false] at h
      rw [List.countP_cons_of_neg _ _ hq]
      exact ih docs h

/-- Every document prepared by `initialize_rag_system` comes from a qualifying
record of the data, and its metadata is exactly the `page`/`chunk_id` dict
built from that record. -/
theorem documentsCore_mem (data : List Record) (docs : List Doc)
    (h : documentsCore data = some docs) (d : Doc) (hd : d ∈ docs) :
    ∃ item ∈ data, qualifies item ∧ ∃ cid, dget item "chunk_id" = some cid ∧
      d.metadata = [("page", (dget item "page_idx").getD Val.null),
                    ("chunk_id", cid)] := by
  induction data generalizing docs with
  | nil =>
    simp only [documentsCore, Option.some.injEq] at h
    rw [← h] at hd
    cases hd
  | cons item rest ih =>
    by_cases hq : qualifies item
    · simp only [documentsCore, hq, if_true] at h
      cases hcid : dget item "chunk_id" with
      | none => rw [hcid] at h; cases h
      | some cid =>
        rw [hcid] at h
        cases hrest : documentsCore rest with
        | none => rw [hrest] at h; cases h
        | some ds =>
          rw [hrest] at h
          simp only [Option.some.injEq] at h
          rw [← h] at hd
          cases hd with
          | head =>
            exact ⟨item, List.mem_cons_self _ _, hq, cid, hcid, rfl⟩
          | tail _ htail =>
            obtain ⟨it, hit, hiq, c, hc, hmeta⟩ := ih ds hrest htail
            exact ⟨it, List.mem_cons_of_mem _ hit, hiq, c, hc, hmeta⟩
    · simp only [documentsCore, hq, if_false] at h
      obtain ⟨it, hit, hiq, c, hc, hmeta⟩ := ih docs h hd
      exact ⟨it, List.mem_cons_of_mem _ hit, hiq, c, hc, hmeta⟩

/-- Every document prepared by `run_mineru_rag_pipeline` comes from a
qualifying record, and its metadata is exactly the four-entry dict built from
that record. -/
theorem documentsRag_mem (data : List Record) (docs : List Doc)
    (h : documentsRag data = some docs) (d : Doc) (hd : d ∈ docs) :
    ∃ item ∈ data, qualifies item ∧ ∃ cid, dget item "chunk_id" = some cid ∧
      d.metadata = [("page", (dget item "page_idx").getD (Val.s "N/A")),
                    ("type", (dget item "type").getD Val.null),
                    ("level", (dget item "text_level").getD (Val.i 0)),
                    ("chunk_id", cid)] := by
  induction data generalizing docs with
  | nil =>
    simp only [documentsRag, Option.some.injEq] at h
    rw [← h] at hd
    cases hd
  | cons item rest ih =>
    by_cases hq : qualifies item
    · simp only [documentsRag, hq, if_true] at h
      cases hcid : dget item "chunk_id" with
      | none => rw [hcid] at h; cases h
      | some cid =>
        rw [hcid] at h
        cases hrest : documentsRag rest with
        | none => rw [hrest] at h; cases h
        | some ds =>
          rw [hrest] at h
          simp only [Option.some.injEq] at h
          rw [← h] at hd
          cases hd with
          | head =>
            exact ⟨item, List.mem_cons_self _ _, hq, cid, hcid, rfl⟩
          | tail _ htail =>
            obtain ⟨it, hit, hiq, c, hc, hmeta⟩ := ih ds hrest htail
            exact ⟨it, List.mem_cons_of_mem _ hit, hiq, c, hc, hmeta⟩
    · simp only [documentsRag, hq, if_false] at h
      obtain ⟨it, hit, hiq, c, hc, hmeta⟩ := ih docs h hd
      exact ⟨it, List.mem_cons_of_mem _ hit, hiq, c, hc, hmeta⟩

theorem vget_vset_self (m : List (Val × Record)) (k : Val) (v : Record) :
    vget (vset m k v) k = some v := by
  induction m with
  | nil => simp [vget, vset]
  | cons p rest ih =>
    by_cases h : p.1 = k
    · simp [vset, vget, h]
    · simp [vset, vget, h, ih]

theorem vget_vset_isSome (m : List (Val × Record)) (k k' : Val) (v : Record)
    (h : (vget m k').isSome) : (vget (vset m k v) k').isSome := by
  induction m with
  | nil => simp [vget] at h
  | cons p rest ih =>
    by_cases hp : p.1 = k
    · by_cases hk : k = k'
      · simp [vset, vget, hp, hk]
      · have : p.1 ≠ k' := by rw [hp]; exact hk
        simp only [vget, this, if_false] at h
        simp [vset, vget, hp, hk, h]
    · by_cases hk : p.1 = k'
      · have hkk : k' ≠ k := by rw [← hk]; exact hp
        simp [vset, vget, hp, hk, hkk]
      · simp only [vget, hk, if_false] at h
        simp [vset, vget, hp, hk, ih h]

/-- Keys already accumulated survive the rest of the reference-map build. -/
theorem buildReferenceMapAux_preserves (data : List Record)
    (acc rm : List (Val × Record)) (h : buildReferenceMapAux acc data = some rm)
    (k : Val) (hk : (vget acc k).isSome) : (vget rm k).isSome := by
  induction data generalizing acc with
  | nil =>
    simp only [buildReferenceMapAux, Option.some.injEq] at h
    rw [← h]
    exact hk
  | cons item rest ih =>
    simp only [buildReferenceMapAux] at h
    cases hcid : dget item "chunk_id" with
    | none => rw [hcid] at h; cases h
    | some cid =>
      rw [hcid] at h
      exact ih _ h (vget_vset_isSome _ _ _ _ hk)

/-- Every record of the data contributes its `chunk_id` as a key of the
reference map. -/
theorem buildReferenceMapAux_mem_key (data : List Record)
    (acc rm : List (Val × Record)) (h : buildReferenceMapAux acc data = some rm)
    (item : Record) (hm : item ∈ data) (cid : Val)
    (hcid : dget item "chunk_id" = some cid) : (vget rm cid).isSome := by
  induction data generalizing acc with
  | nil => cases hm
  | cons hd rest ih =>
    simp only [buildReferenceMapAux] at h
    cases hhd : dget hd "chunk_id" with
    | none => rw [hhd] at h; cases h
    | some c =>
      rw [hhd] at h
      cases hm with
      | head =>
        rw [hcid] at hhd
        cases hhd
        refine buildReferenceMapAux_preserves rest _ _ h cid ?_
        rw [vget_vset_self]
        rfl
      | tail _ htail => exact ih _ h htail

/-- C1 counterexample: on a raw file whose single record already binds
`chunk_id` to `"old"`, the comprehension enrichment of `initialize_rag_system`
leaves the record at position 0 carrying `chunk_id = "old"`, not `"chunk_0"`,
because `{'chunk_id': f"chunk_0", **item}` lets the item's own binding
override the generated one. -/
theorem C1_counterexample :
    enrichComp [[("chunk_id", Val.s "old")]] = [[("chunk_id", Val.s "old")]] ∧
    dget [("chunk_id", Val.s "old")] "chunk_id" = some (Val.s "old") ∧
    Val.s "old" ≠ Val.s (chunkId 0) := by decide

/-- C1 (amended): for every raw extraction file, the loop enrichment of
`run_mineru_rag_pipeline` gives the record at 0-based position `i` the
identifier `chunk_i` unconditionally; the comprehension enrichment of
`initialize_rag_system` does so whenever the raw record does not already bind
`chunk_id` (a pre-existing binding is kept unchanged there). -/
theorem C1_enrichment_assigns_positional_chunk_ids
    (data : List Record) (i : Nat) (item : Record) (hi : data[i]? = some item) :
    ((enrichLoop data)[i]? = some (dset item "chunk_id" (Val.s (chunkId i))) ∧
      dget (dset item "chunk_id" (Val.s (chunkId i))) "chunk_id" =
        some (Val.s (chunkId i))) ∧
    (dget item "chunk_id" = none →
      ∃ e, (enrichComp data)[i]? = some e ∧
        dget e "chunk_id" = some (Val.s (chunkId i))) := by
  constructor
  · constructor
    · rw [enrichLoop, enrichLoopFrom_getElem, hi]
      simp
    · exact dget_dset_self item "chunk_id" (Val.s (chunkId i))
  · intro hnone
    refine ⟨mergeInto [("chunk_id", Val.s (chunkId i))] item, ?_, ?_⟩
    · rw [enrichComp, enrichCompFrom_getElem, hi]
      simp
    · rw [dget_mergeInto_of_none _ _ _ hnone]
      simp [dget]

/-- C1 witness: the amended theorem evaluated on the one-record raw file
`[{"type": "text"}]` at position 0. -/
theorem C1_witness :
    ((enrichLoop [[("type", Val.s "text")]])[0]? =
        some (dset [("type", Val.s "text")] "chunk_id" (Val.s (chunkId 0))) ∧
      dget (dset [("type", Val.s "text")] "chunk_id" (Val.s (chunkId 0))) "chunk_id" =
        some (Val.s (chunkId 0))) ∧
    (∃ e, (enrichComp [[("type", Val.s "text")]])[0]? = some e ∧
      dget e "chunk_id" = some (Val.s (chunkId 0))) := by
  have h := C1_enrichment_assigns_positional_chunk_ids
    [[("type", Val.s "text")]] 0 [("type", Val.s "text")] (by decide)
  exact ⟨h.1, h.2 (by decide)⟩

/-- C10 counterexample: on the raw file `[{"chunk_id": "old"}]` the two
enrichment implementations disagree at position 0 on key `chunk_id`:
the loop overwrites it with `chunk_0`, the comprehension keeps `old`. -/
theorem C10_counterexample :
    enrichLoop [[("chunk_id", Val.s "old")]] = [[("chunk_id", Val.s "chunk_0")]] ∧
    enrichComp [[("chunk_id", Val.s "old")]] = [[("chunk_id", Val.s "old")]] ∧
    dget [("chunk_id", Val.s "chunk_0")] "chunk_id" ≠
      dget [("chunk_id", Val.s "old")] "chunk_id" := by decide

/-- C10 (amended): the loop of `run_mineru_rag_pipeline` and the comprehension
of `initialize_rag_system` produce records with the same key-to-value mapping
at every position, provided no raw record already binds `chunk_id`; when a raw
record does bind it, the loop overwrites it with `chunk_i` while the
comprehension keeps the original value, and the results differ. -/
theorem C10_enrichment_implementations_agree
    (data : List Record) (hwf : ∀ item ∈ data, recordWF item)
    (hnone : ∀ item ∈ data, dget item "chunk_id" = none) (i : Nat) (k : String) :
    ((enrichLoop data)[i]?).map (fun e => dget e k) =
      ((enrichComp data)[i]?).map (fun e => dget e k) := by
  rw [enrichLoop, enrichComp, enrichLoopFrom_getElem, enrichCompFrom_getElem]
  cases hd : data[i]? with
  | none => simp
  | some item =>
    have hm : item ∈ data := by
      have := List.getElem?_eq_some.mp hd
      obtain ⟨hlen, hval⟩ := this
      exact hval ▸ List.getElem_mem _
    simp only [Option.map_some']
    exact congrArg some (dset_vs_merge item (hwf _ hm) (hnone _ hm) _ k)

/-- C10 witness: the amended theorem evaluated on the one-record raw file
`[{"type": "text"}]` at position 0, key `chunk_id`. -/
theorem C10_witness :
    ((enrichLoop [[("type", Val.s "text")]])[0]?).map (fun e => dget e "chunk_id") =
      ((enrichComp [[("type", Val.s "text")]])[0]?).map (fun e => dget e "chunk_id") :=
  C10_enrichment_implementations_agree [[("type", Val.s "text")]]
    (by decide) (by decide) 0 "chunk_id"

/-- C2: when the enriched chunk file already exists, the chunk-store building
step returns the file system unchanged, performs no file effect — in
particular no read of the raw file and no write of the enriched file — and
reports reuse, regardless of whether the raw file is present, absent, or
changed. -/
theorem C2_enrichment_skip_is_noop (fs : ChunkFS) (h : fs.enrichedExists = true) :
    buildChunkStore fs = (fs, [], BuildResult.reused) := by
  simp [buildChunkStore, h]

/-- C2 witness: the theorem evaluated on a state where the enriched file
exists and the raw file is absent. -/
theorem C2_witness :
    buildChunkStore ⟨false, [], true, [[("chunk_id", Val.s "chunk_0")]]⟩ =
      (⟨false, [], true, [[("chunk_id", Val.s "chunk_0")]]⟩, [],
        BuildResult.reused) :=
  C2_enrichment_skip_is_noop _ rfl

/-- C3: starting from the empty collection, one invocation of the index
population step stores exactly the prepared documents — one per chunk with
`type == "text"` and non-blank `text` — so the collection cardinality equals
the count of qualifying chunks; a second invocation, finding the cardinality
non-zero, performs zero additional writes and leaves the collection as is. -/
theorem C3_populate_once_then_reuse (data : List Record) (docs : List Doc)
    (h : documentsCore data = some docs) :
    (initIndex docs ⟨[]⟩).1.records.length = data.countP qualifies ∧
    (initIndex docs ⟨[]⟩).2 = docs ∧
    ((initIndex docs ⟨[]⟩).1.records.length ≠ 0 →
      initIndex docs (initIndex docs ⟨[]⟩).1 = ((initIndex docs ⟨[]⟩).1, [])) := by
  have hl := documentsCore_length data docs h
  refine ⟨by simp [initIndex, hl], by simp [initIndex], ?_⟩
  intro hne
  simp only [initIndex, List.length_nil, if_true, List.nil_append] at hne ⊢
  simp [if_neg hne]

/-- C3 witness: the theorem evaluated on a two-record enriched file with one
qualifying text chunk and one image chunk. -/
theorem C3_witness :
    (initIndex [⟨"hello", [("page", Val.null), ("chunk_id", Val.s "chunk_0")]⟩]
        ⟨[]⟩).1.records.length =
      ([[("type", Val.s "text"), ("text", Val.s "hello"),
          ("chunk_id", Val.s "chunk_0")],
        [("type", Val.s "image"), ("text", Val.s ""),
          ("chunk_id", Val.s "chunk_1")]] : List Record).countP qualifies ∧
    (initIndex [⟨"hello", [("page", Val.null), ("chunk_id", Val.s "chunk_0")]⟩]
        ⟨[]⟩).2 =
      [⟨"hello", [("page", Val.null), ("chunk_id", Val.s "chunk_0")]⟩] ∧
    ((initIndex [⟨"hello", [("page", Val.null), ("chunk_id", Val.s "chunk_0")]⟩]
        ⟨[]⟩).1.records.length ≠ 0 →
      initIndex [⟨"hello", [("page", Val.null), ("chunk_id", Val.s "chunk_0")]⟩]
          (initIndex [⟨"hello", [("page", Val.null),
            ("chunk_id", Val.s "chunk_0")]⟩] ⟨[]⟩).1 =
        ((initIndex [⟨"hello", [("page", Val.null),
            ("chunk_id", Val.s "chunk_0")]⟩] ⟨[]⟩).1, [])) :=
  C3_populate_once_then_reuse
    [[("type", Val.s "text"), ("text", Val.s "hello"),
        ("chunk_id", Val.s "chunk_0")],
      [("type", Val.s "image"), ("text", Val.s ""),
        ("chunk_id", Val.s "chunk_1")]]
    [⟨"hello", [("page", Val.null), ("chunk_id", Val.s "chunk_0")]⟩] (by decide)

/-- C4 counterexample: the document built by `initialize_rag_system` from the
qualifying chunk `{"type": "text", "text": "hello", "chunk_id": "chunk_0"}`
has metadata with no `type` key and no `level` key: only `page` and
`chunk_id` are attached on that code path. -/
theorem C4_counterexample :
    documentsCore
        [[("type", Val.s "text"), ("text", Val.s "hello"),
          ("chunk_id", Val.s "chunk_0")]] =
      some [⟨"hello", [("page", Val.null), ("chunk_id", Val.s "chunk_0")]⟩] ∧
    dget [("page", Val.null), ("chunk_id", Val.s "chunk_0")] "type" = none ∧
    dget [("page", Val.null), ("chunk_id", Val.s "chunk_0")] "level" = none := by
  decide

/-- C4 (amended): documents built by `run_mineru_rag_pipeline` carry all four
metadata fields `page`, `type`, `level`, `chunk_id`, with values taken from
the originating enriched record; documents built by `initialize_rag_system`
carry only `page` and `chunk_id`. -/
theorem C4_document_metadata_fields (data : List Record) (docsR docsC : List Doc)
    (hR : documentsRag data = some docsR) (hC : documentsCore data = some docsC) :
    (∀ d ∈ docsR, ∃ item ∈ data, qualifies item ∧ ∃ cid,
      dget item "chunk_id" = some cid ∧
      dget d.metadata "page" = some ((dget item "page_idx").getD (Val.s "N/A")) ∧
      dget d.metadata "type" = some ((dget item "type").getD Val.null) ∧
      dget d.metadata "level" = some ((dget item "text_level").getD (Val.i 0)) ∧
      dget d.metadata "chunk_id" = some cid) ∧
    (∀ d ∈ docsC, d.metadata.map Prod.fst = ["page", "chunk_id"]) := by
  constructor
  · intro d hd
    obtain ⟨item, hm, hq, cid, hcid, hmeta⟩ := documentsRag_mem data docsR hR d hd
    exact ⟨item, hm, hq, cid, hcid, by rw [hmeta]; rfl, by rw [hmeta]; rfl,
      by rw [hmeta]; rfl, by rw [hmeta]; rfl⟩
  · intro d hd
    obtain ⟨item, _, _, cid, _, hmeta⟩ := documentsCore_mem data docsC hC d hd
    rw [hmeta]
    rfl

/-- C4 witness: the amended theorem evaluated on a one-chunk enriched file. -/
theorem C4_witness :
    (∀ d ∈ [(⟨"hi", [("page", Val.s "N/A"), ("type", Val.s "text"),
        ("level", Val.i 0), ("chunk_id", Val.s "chunk_0")]⟩ : Doc)],
      ∃ item ∈ [[("type", Val.s "text"), ("text", Val.s "hi"),
          ("chunk_id", Val.s "chunk_0")]], qualifies item ∧ ∃ cid,
        dget item "chunk_id" = some cid ∧
        dget d.metadata "page" = some ((dget item "page_idx").getD (Val.s "N/A")) ∧
        dget d.metadata "type" = some ((dget item "type").getD Val.null) ∧
        dget d.metadata "level" = some ((dget item "text_level").getD (Val.i 0)) ∧
        dget d.metadata "chunk_id" = some cid) ∧
    (∀ d ∈ [(⟨"hi", [("page", Val.null), ("chunk_id", Val.s "chunk_0")]⟩ : Doc)],
      d.metadata.map Prod.fst = ["page", "chunk_id"]) :=
  C4_document_metadata_fields
    [[("type", Val.s "text"), ("text", Val.s "hi"), ("chunk_id", Val.s "chunk_0")]]
    [⟨"hi", [("page", Val.s "N/A"), ("type", Val.s "text"), ("level", Val.i 0),
      ("chunk_id", Val.s "chunk_0")]⟩]
    [⟨"hi", [("page", Val.null), ("chunk_id", Val.s "chunk_0")]⟩]
    (by decide) (by decide)

/-- C6: on a timeline whose root query event pair starts at
`01/01/2024, 00:00:00.000000` and ends at `01/01/2024, 00:00:01.500000`, the
renderer's duration computation returns exactly 1.5 seconds; and for every
event kind with no start/end pair in the timeline, it returns None — never
zero. -/
theorem C6_duration_computation (pairs : List (TraceEvent × TraceEvent))
    (etype : String) (h : ∀ p ∈ pairs, p.1.eventType ≠ etype) :
    getDuration [(⟨"query", "01/01/2024, 00:00:00.000000"⟩,
        ⟨"query", "01/01/2024, 00:00:01.500000"⟩)] "query" =
      Except.ok (some (3 / 2)) ∧
    getDuration pairs etype = Except.ok none := by
  constructor
  · have hst : parseTimestamp "01/01/2024, 00:00:00.000000" =
        some ⟨2024, 1, 1, 0, 0, 0, 0⟩ := by decide
    have hen : parseTimestamp "01/01/2024, 00:00:01.500000" =
        some ⟨2024, 1, 1, 0, 0, 1, 500000⟩ := by decide
    simp only [getDuration, List.find?_cons_of_pos, beq_self_eq_true, hst, hen]
    norm_num [toMicros, toOrdinal, daysBeforeMonth, isLeap]
  · have hf : pairs.find? (fun p => p.1.eventType == etype) = none := by
      rw [List.find?_eq_none]
      intro x hx
      simpa using h x hx
    simp [getDuration, hf]

/-- C6 witness: the theorem evaluated on a one-pair timeline containing only
a retrieval pair, asked for the duration of the embedding kind. -/
theorem C6_witness :
    getDuration [(⟨"query", "01/01/2024, 00:00:00.000000"⟩,
        ⟨"query", "01/01/2024, 00:00:01.500000"⟩)] "query" =
      Except.ok (some (3 / 2)) ∧
    getDuration [(⟨"retrieve", "01/01/2024, 00:00:00.000000"⟩,
        ⟨"retrieve", "01/01/2024, 00:00:00.250000"⟩)] "embedding" =
      Except.ok none :=
  C6_duration_computation
    [(⟨"retrieve", "01/01/2024, 00:00:00.000000"⟩,
      ⟨"retrieve", "01/01/2024, 00:00:00.250000"⟩)] "embedding" (by decide)

/-- C7: every chunk identifier attached as metadata to a document stored
during index population from an enriched file is a key of the reference map
built from the same enriched file, so a provenance lookup for any retrieved
record succeeds. -/
theorem C7_referential_completeness (data : List Record) (docs : List Doc)
    (rm : List (Val × Record)) (hdocs : documentsCore data = some docs)
    (hrm : buildReferenceMap data = some rm) (d : Doc) (hd : d ∈ docs)
    (cid : Val) (hcid : dget d.metadata "chunk_id" = some cid) :
    (vget rm cid).isSome := by
  obtain ⟨item, hm, _, c, hc, hmeta⟩ := documentsCore_mem data docs hdocs d hd
  have : dget d.metadata "chunk_id" = some c := by rw [hmeta]; rfl
  rw [this] at hcid
  cases hcid
  exact buildReferenceMapAux_mem_key data [] rm hrm item hm cid hc

/-- C7 witness: the theorem evaluated on a one-chunk enriched file. -/
theorem C7_witness :
    (vget [(Val.s "chunk_0",
        [("type", Val.s "text"), ("text", Val.s "hi"),
          ("chunk_id", Val.s "chunk_0")])] (Val.s "chunk_0")).isSome :=
  C7_referential_completeness
    [[("type", Val.s "text"), ("text", Val.s "hi"), ("chunk_id", Val.s "chunk_0")]]
    [⟨"hi", [("page", Val.null), ("chunk_id", Val.s "chunk_0")]⟩]
    [(Val.s "chunk_0",
      [("type", Val.s "text"), ("text", Val.s "hi"),
        ("chunk_id", Val.s "chunk_0")])]
    (by decide) (by decide)
    ⟨"hi", [("page", Val.null), ("chunk_id", Val.s "chunk_0")]⟩
    (by decide) (Val.s "chunk_0") (by decide)

/-- C5 counterexample: when the retrieval+synthesis call raises, the
traced-query block leaves the global callback-manager slot still bound to
this query's sink — the reset statement after the call never runs, since
nothing guards it with try/finally — while the exception propagates with no
message appended. -/
theorem C5_counterexample :
    tracedQueryBlock 0 (Except.error ⟨"boom"⟩) [] =
      (CallbackSlot.boundSink 0, [], Except.error ⟨"boom"⟩) ∧
    CallbackSlot.boundSink 0 ≠ CallbackSlot.emptyManager :=
  ⟨rfl, fun h => CallbackSlot.noConfusion h⟩

/-- C5 (amended): the traced-query block resets the global callback-manager
slot to the empty manager only on the normal-completion path, where it also
records the answer; when the retrieval+synthesis call raises, the exception
propagates to the caller with no partial answer recorded, but the slot is
left bound to the query's sink — the reset is not executed on that path. -/
theorem C5_tracer_reset_paths (sinkId : Nat) (messages : List String) :
    (∀ ans, tracedQueryBlock sinkId (Except.ok ans) messages =
      (CallbackSlot.emptyManager, messages ++ [ans], Except.ok ans)) ∧
    (∀ e, tracedQueryBlock sinkId (Except.error e) messages =
      (CallbackSlot.boundSink sinkId, messages, Except.error e)) :=
  ⟨fun _ => rfl, fun _ => rfl⟩

/-- C8 counterexample: with every one of the six environment variables
absent, `initialize_rag_system` does not abort: it proceeds to construct
both model clients with the missing values. -/
theorem C8_counterexample :
    configModelsCore ⟨none, none, none, none, none, none⟩ =
      ConfigOutcome.configured none none none none none none ∧
    configModelsCore ⟨none, none, none, none, none, none⟩ ≠
      ConfigOutcome.abortedMissingLLM ∧
    configModelsCore ⟨none, none, none, none, none, none⟩ ≠
      ConfigOutcome.abortedMissingEmbed := by decide

/-- C8 (amended): `run_mineru_rag_pipeline` requires all six environment
values and aborts with a configuration error, before constructing any
client of the missing group, when any of them is absent or empty;
`initialize_rag_system` performs no such validation and always proceeds to
construct both clients with whatever values are present. -/
theorem C8_env_validation (env : Env) :
    ((truthy env.llm_api_base && truthy env.llm_api_key &&
        truthy env.llm_model_name && truthy env.embed_api_base &&
        truthy env.embed_api_key && truthy env.embed_model_name) = false →
      configModelsRag env = ConfigOutcome.abortedMissingLLM ∨
      configModelsRag env = ConfigOutcome.abortedMissingEmbed) ∧
    configModelsCore env =
      ConfigOutcome.configured env.llm_model_name env.llm_api_base
        env.llm_api_key env.embed_model_name env.embed_api_base
        env.embed_api_key := by
  refine ⟨?_, rfl⟩
  intro h
  cases hllm : (truthy env.llm_api_base && truthy env.llm_api_key &&
      truthy env.llm_model_name) with
  | false =>
    left
    simp [configModelsRag, hllm]
  | true =>
    right
    cases hemb : (truthy env.embed_api_base && truthy env.embed_api_key &&
        truthy env.embed_model_name) with
    | false => simp [configModelsRag, hllm, hemb]
    | true =>
      exfalso
      rw [Bool.and_eq_true, Bool.and_eq_true] at hllm hemb
      simp [hllm.1.1, hllm.1.2, hllm.2, hemb.1.1, hemb.1.2, hemb.2] at h

/-- C8 witness: the amended theorem evaluated on an environment where only
the LLM key is missing. -/
theorem C8_witness :
    (configModelsRag ⟨some "http://llm", none, some "m", some "http://e",
        some "k", some "em"⟩ = ConfigOutcome.abortedMissingLLM ∨
      configModelsRag ⟨some "http://llm", none, some "m", some "http://e",
        some "k", some "em"⟩ = ConfigOutcome.abortedMissingEmbed) ∧
    configModelsCore ⟨some "http://llm", none, some "m", some "http://e",
        some "k", some "em"⟩ =
      ConfigOutcome.configured (some "m") (some "http://llm") none
        (some "em") (some "http://e") (some "k") := by
  have h := C8_env_validation ⟨some "http://llm", none, some "m",
    some "http://e", some "k", some "em"⟩
  exact ⟨h.1 (by decide), h.2⟩

/-- C9 counterexample: in a batch whose first document fails to read and
whose second is fine, `parse_doc` logs the failure and does not crash, but
the second document is never handed to `do_parse`: the single try block
around the whole batch abandons the remaining documents. -/
theorem C9_counterexample :
    parse_doc [⟨"bad", false⟩, ⟨"good", true⟩] =
      { parsedDocs := [], loggedError := some "bad", crashed := false } ∧
    "good" ∉ (parse_doc [⟨"bad", false⟩, ⟨"good", true⟩]).parsedDocs := by
  decide

/-- C9 (amended): a failure while processing any document of the batch is
caught by the try/except around the whole `parse_doc` body and logged, and
the function returns without crashing; but reading every document and the
single batched `do_parse` call sit inside that one try block, so on a
failure none of the batch's documents is parsed — processing does not
continue with the remaining documents. When every document reads
successfully, the whole batch is parsed with nothing logged. -/
theorem C9_batch_failure_behavior (docs : List DocFile) :
    (parse_doc docs).crashed = false ∧
    ((∀ d ∈ docs, d.readable = true) →
      parse_doc docs =
        { parsedDocs := docs.map DocFile.name, loggedError := none,
          crashed := false }) ∧
    ((∃ d ∈ docs, d.readable = false) →
      (parse_doc docs).parsedDocs = [] ∧
      (parse_doc docs).loggedError.isSome) := by
  refine ⟨?_, ?_, ?_⟩
  · unfold parse_doc
    cases readAll docs <;> rfl
  · intro hall
    have : readAll docs = Except.ok (docs.map DocFile.name) := by
      induction docs with
      | nil => rfl
      | cons d rest ih =>
        have hd : d.readable = true := hall d (List.mem_cons_self _ _)
        have hrest : ∀ x ∈ rest, x.readable = true := by
          intro x hx
          exact hall x (List.mem_cons_of_mem _ hx)
        simp [readAll, hd, ih hrest, Except.map]
    simp [parse_doc, this]
  · intro hex
    have : ∃ n, readAll docs = Except.error n := by
      induction docs with
      | nil =>
        obtain ⟨d, hd, _⟩ := hex
        cases hd
      | cons d rest ih =>
        cases hd : d.readable with
        | true =>
          have hex' : ∃ x ∈ rest, x.readable = false := by
            obtain ⟨x, hx, hfx⟩ := hex
            cases hx with
            | head => rw [hd] at hfx; cases hfx
            | tail _ ht => exact ⟨x, ht, hfx⟩
          obtain ⟨n, hn⟩ := ih hex'
          exact ⟨n, by simp [readAll, hd, hn, Except.map]⟩
        | false => exact ⟨d.name, by simp [readAll, hd]⟩
    obtain ⟨n, hn⟩ := this
    simp [parse_doc, hn]

/-- C9 witness: the amended theorem evaluated on the batch where the first
document fails and a second is readable. -/
theorem C9_witness :
    (parse_doc [⟨"bad", false⟩, ⟨"good", true⟩]).crashed = false ∧
    (parse_doc [⟨"bad", false⟩, ⟨"good", true⟩]).parsedDocs = [] ∧
    (parse_doc [⟨"bad", false⟩, ⟨"good", true⟩]).loggedError.isSome := by
  have h := C9_batch_failure_behavior [⟨"bad", false⟩, ⟨"good", true⟩]
  exact ⟨h.1, h.2.2 ⟨⟨"bad", false⟩, by decide⟩⟩

end MineruRag
